import Mathlib

/-!
# Verification of the YNAB categorizer's transfer-pair detection and
# approval-state reconciliation logic

Shallow embedding of `src/ynab_categorizer/categorize_agent.py` and
`src/ynab_categorizer/approval_handler.py`, with theorems checking the
specification's claims about these functions.
-/

namespace YnabSpec

/-! ## Transaction records (as delivered by the budgeting API)

Python transactions are dicts; we embed the fields the detector reads.
`transfer_account_id` is optional (`txn.get("transfer_account_id")`), and
Python truthiness makes both `None` and the empty string falsy. -/

structure Txn where
  id : String
  payee_name : String
  amount : Int
  date : String
  account_id : String
  transfer_account_id : Option String
deriving DecidableEq, Repr

/-- Python truthiness of `txn.get("transfer_account_id")`: `None` and `""`
are falsy, any other string is truthy. -/
def isTransfer (t : Txn) : Bool :=
  match t.transfer_account_id with
  | none => false
  | some s => s != ""

/-- The match test from `detect_transfer_pairs`:
`date1 == date2 and amount1 == -amount2 and account1 == transfer_account2
and account2 == transfer_account1`. The account comparisons compare a plain
string with an optional one; in Python a string never equals `None`, which
`Option.some` equality mirrors. -/
def pairMatch (t1 t2 : Txn) : Bool :=
  t1.date == t2.date &&
  t1.amount == -t2.amount &&
  some t1.account_id == t2.transfer_account_id &&
  some t2.account_id == t1.transfer_account_id

/-- The inner `for txn2 in transfers[i+1:]` loop: scan the remaining
transfers for the first one not yet in `processed_ids` that satisfies the
match test (the `break` on first match is the `some` return). -/
def findMatch (t1 : Txn) : List Txn → List String → Option Txn
  | [], _ => none
  | t2 :: rest, processed =>
    if processed.contains t2.id then findMatch t1 rest processed
    else if pairMatch t1 t2 then some t2
    else findMatch t1 rest processed

/-- The outer `for i, txn1 in enumerate(transfers)` loop of
`detect_transfer_pairs`, carrying the `processed_ids` set (embedded as a
list of ids) and the accumulated `transfer_pairs` list. -/
def pairLoop : List Txn → List String → List (Txn × Txn) →
    List (Txn × Txn) × List String
  | [], processed, pairs => (pairs, processed)
  | t1 :: rest, processed, pairs =>
    if processed.contains t1.id then pairLoop rest processed pairs
    else
      match findMatch t1 rest processed with
      | some t2 =>
          pairLoop rest (processed ++ [t1.id, t2.id]) (pairs ++ [(t1, t2)])
      | none => pairLoop rest processed pairs

/-- `YNABAgent.detect_transfer_pairs` (categorize_agent.py lines 142-188):
partition into transfers / non-transfers, pair transfers first-found-wins,
then fold unmatched transfers back into the non-transfer list. -/
def detect_transfer_pairs (transactions : List Txn) :
    List (Txn × Txn) × List Txn :=
  let transfers := transactions.filter isTransfer
  let non_transfers := transactions.filter (fun t => !isTransfer t)
  let r := pairLoop transfers [] []
  let unmatched := transfers.filter (fun t => !r.2.contains t.id)
  (r.1, non_transfers ++ unmatched)

/-! ## Approval handler (approval_handler.py)

The handler's per-batch transactions carry an id, a payee name and the
AI-suggested category. Its state is the persisted agent-state document:
the processed-transaction id list, the learned-pattern mapping (a Python
dict, embedded as an insertion-ordered association list), and the pending
batches keyed by thread timestamp. -/

structure PTxn where
  id : String
  payee_name : String
  suggested_category : String
deriving DecidableEq, Repr

instance : Inhabited PTxn := ⟨⟨"", "", ""⟩⟩

structure AgentState where
  processed_transactions : List String
  category_patterns : List (String × String)
  pending : List (String × List PTxn)
deriving DecidableEq, Repr

/-- Python dict lookup `d.get(k)` on an insertion-ordered association list
with unique keys: first (only) binding wins. -/
def dictGet (d : List (String × String)) (k : String) : Option String :=
  (d.find? (fun kv => kv.1 == k)).map (fun kv => kv.2)

/-- Python dict assignment `d[k] = v`: update in place if the key exists
(keeping its position), else append. -/
def dictSet (d : List (String × String)) (k v : String) :
    List (String × String) :=
  if d.any (fun kv => kv.1 == k) then
    d.map (fun kv => if kv.1 == k then (kv.1, v) else kv)
  else d ++ [(k, v)]

/-- `self.state.pop(f"pending_{thread_ts}", None)`. -/
def popPending (pending : List (String × List PTxn)) (ts : String) :
    List (String × List PTxn) :=
  pending.filter (fun kv => kv.1 != ts)

/-- `self.state[f"pending_{thread_ts}"]["transactions"] = remaining`. -/
def setPendingTxns (pending : List (String × List PTxn)) (ts : String)
    (txns : List PTxn) : List (String × List PTxn) :=
  pending.map (fun kv => if kv.1 == ts then (kv.1, txns) else kv)

/-- Lookup of a pending batch by thread timestamp. -/
def getPending (pending : List (String × List PTxn)) (ts : String) :
    Option (List PTxn) :=
  (pending.find? (fun kv => kv.1 == ts)).map (fun kv => kv.2)

/-- The external-call trace: one `updateCall` per invocation of
`update_ynab_transaction`, one `patternWrite` per `learn_pattern` call,
one `processedAppend` per id appended to `processed_transactions`. -/
inductive Ev
  | updateCall (tid : String) (categoryName : String)
  | patternWrite (key : String) (cat : String)
  | processedAppend (tid : String)
deriving DecidableEq, Repr

def Ev.isUpdateCall : Ev → Bool
  | .updateCall _ _ => true
  | _ => false

def Ev.isPatternWrite : Ev → Bool
  | .patternWrite _ _ => true
  | _ => false

def Ev.isProcessedAppend : Ev → Bool
  | .processedAppend _ => true
  | _ => false

/-- `ApprovalHandler.update_ynab_transaction` (lines 68-80): look the
category name up in `category_name_to_id` (exact, case-sensitive dict
lookup); a missing or falsy id fails immediately; otherwise the PATCH
call's outcome decides success. The HTTP layer is an oracle
`patchOk : transaction id → category id → Bool`. -/
def update_ynab_transaction (nameToId : List (String × String))
    (patchOk : String → String → Bool)
    (transaction_id category_name : String) : Bool :=
  match dictGet nameToId category_name with
  | none => false
  | some cid => if cid == "" then false else patchOk transaction_id cid

/-- Python's `str.lower()` (ASCII case folding, as in `String.toLower`,
written out over the character list so that it evaluates by kernel
reduction). -/
def strLower (s : String) : String :=
  String.mk (s.data.map Char.toLower)

/-- `ApprovalHandler.learn_pattern`'s payee normalization:
`payee_name.lower().strip()`. -/
def normalizePayee (payee_name : String) : String :=
  (strLower payee_name).trim

/-- `ApprovalHandler.learn_pattern` (lines 82-87): store the normalized
payee → category binding (a dict write, overwriting any earlier binding). -/
def learn_pattern (pats : List (String × String)) (payee_name cat : String) :
    List (String × String) :=
  dictSet pats (normalizePayee payee_name) cat

/-- One reply line: `✅ i. payee → category`, `❌ i. payee (failed)`, or
`❌ n. Invalid transaction number`. -/
inductive Line
  | ok (num : Nat) (payee : String) (cat : String)
  | failed (num : Nat) (payee : String)
  | invalid (num : Nat)
deriving DecidableEq, Repr

def Line.isOk : Line → Bool
  | .ok _ _ _ => true
  | _ => false

/-- The `for i, txn in enumerate(transactions, 1)` loop of
`ApprovalHandler.approve_all` (lines 123-135): one update call per
transaction; on success, learn the pattern and append to
`processed_transactions`; the loop never stops early. -/
def approveAllLoop (nameToId : List (String × String))
    (patchOk : String → String → Bool) :
    List PTxn → Nat → AgentState → AgentState × List Line × List Ev
  | [], _, st => (st, [], [])
  | txn :: rest, i, st =>
    let category := txn.suggested_category
    let success := update_ynab_transaction nameToId patchOk txn.id category
    if success then
      let st1 : AgentState :=
        { st with
          category_patterns := learn_pattern st.category_patterns txn.payee_name category,
          processed_transactions := st.processed_transactions ++ [txn.id] }
      let r := approveAllLoop nameToId patchOk rest (i + 1) st1
      (r.1, Line.ok i txn.payee_name category :: r.2.1,
        Ev.updateCall txn.id category ::
        Ev.patternWrite (normalizePayee txn.payee_name) category ::
        Ev.processedAppend txn.id :: r.2.2)
    else
      let r := approveAllLoop nameToId patchOk rest (i + 1) st
      (r.1, Line.failed i txn.payee_name :: r.2.1,
        Ev.updateCall txn.id category :: r.2.2)

/-- `ApprovalHandler.approve_all` (lines 121-144): run the loop over every
transaction, then unconditionally pop the whole pending batch; the reply
reports `success_count`/`len(transactions)` plus the per-item lines. -/
def approve_all (nameToId : List (String × String))
    (patchOk : String → String → Bool) (transactions : List PTxn)
    (thread_ts : String) (st : AgentState) :
    AgentState × List Line × List Ev × Nat :=
  let r := approveAllLoop nameToId patchOk transactions 1 st
  let st2 : AgentState := { r.1 with pending := popPending r.1.pending thread_ts }
  let success_count := r.2.1.countP Line.isOk
  (st2, r.2.1, r.2.2, success_count)

/-- The `for num_str in numbers` loop of `ApprovalHandler.approve_specific`
(lines 151-166): out-of-range numbers yield an individual failure line and
`continue`; otherwise one update call; successes learn a pattern and join
`approved_ids`. Returns (state, lines, approved ids, events). -/
def approveSpecificLoop (nameToId : List (String × String))
    (patchOk : String → String → Bool) (transactions : List PTxn) :
    List Nat → AgentState → AgentState × List Line × List String × List Ev
  | [], st => (st, [], [], [])
  | num :: rest, st =>
    if num < 1 ∨ transactions.length < num then
      let r := approveSpecificLoop nameToId patchOk transactions rest st
      (r.1, Line.invalid num :: r.2.1, r.2.2.1, r.2.2.2)
    else
      let txn := transactions.getD (num - 1) default
      let category := txn.suggested_category
      let success := update_ynab_transaction nameToId patchOk txn.id category
      if success then
        let st1 : AgentState :=
          { st with category_patterns := learn_pattern st.category_patterns txn.payee_name category }
        let r := approveSpecificLoop nameToId patchOk transactions rest st1
        (r.1, Line.ok num txn.payee_name category :: r.2.1,
          txn.id :: r.2.2.1,
          Ev.updateCall txn.id category ::
          Ev.patternWrite (normalizePayee txn.payee_name) category :: r.2.2.2)
      else
        let r := approveSpecificLoop nameToId patchOk transactions rest st
        (r.1, Line.failed num txn.payee_name :: r.2.1, r.2.2.1,
          Ev.updateCall txn.id category :: r.2.2.2)

/-- `ApprovalHandler.approve_specific` (lines 146-184): after the loop,
extend `processed_transactions` with the approved ids, keep the
not-approved transactions in the pending batch (or pop it when empty);
the reply reports the approved count, the lines, and — when transactions
remain — the remaining pending count. -/
def approve_specific (nameToId : List (String × String))
    (patchOk : String → String → Bool) (transactions : List PTxn)
    (numbers : List Nat) (thread_ts : String) (st : AgentState) :
    AgentState × List Line × List Ev × Nat × Option Nat :=
  let r := approveSpecificLoop nameToId patchOk transactions numbers st
  let approved_ids := r.2.2.1
  let st1 : AgentState :=
    { r.1 with processed_transactions := r.1.processed_transactions ++ approved_ids }
  let remaining := transactions.filter (fun t => !approved_ids.contains t.id)
  let st2 : AgentState :=
    if remaining.isEmpty then { st1 with pending := popPending st1.pending thread_ts }
    else { st1 with pending := setPendingTxns st1.pending thread_ts remaining }
  let evs := r.2.2.2 ++ approved_ids.map Ev.processedAppend
  let remainingNote := if remaining.isEmpty then none else some remaining.length
  (st2, r.2.1, evs, approved_ids.length, remainingNote)

/-! ## Category resolution (`ApprovalHandler.change_category`, lines 186-231) -/

/-- `charsPre pat s` : pat is a leading segment of s (character lists). -/
def charsPre : List Char → List Char → Bool
  | [], _ => true
  | _ :: _, [] => false
  | a :: as, b :: bs => a == b && charsPre as bs

/-- `charsSub pat s` : pat occurs contiguously somewhere in s. -/
def charsSub (pat : List Char) : List Char → Bool
  | [] => pat.isEmpty
  | c :: rest => charsPre pat (c :: rest) || charsSub pat rest

/-- Python's `pat in s` membership test on strings. -/
def strContainsSub (s pat : String) : Bool :=
  charsSub pat.data s.data

/-- The two resolution loops of `change_category`: first the exact
case-insensitive pass over `category_name_to_id.keys()`, then the
partial pass `new_category.lower() in cat_name.lower()`; each takes the
first hit in iteration order. -/
def resolveCategory (names : List String) (input : String) : Option String :=
  match names.find? (fun n => strLower n == strLower input) with
  | some c => some c
  | none => names.find? (fun n => strContainsSub (strLower n) (strLower input))

/-- Lexicographic code-point comparison of character lists — the order
Python uses to compare strings. -/
def charListLe : List Char → List Char → Bool
  | [], _ => true
  | _ :: _, [] => false
  | a :: as, b :: bs =>
    if a.toNat < b.toNat then true
    else if b.toNat < a.toNat then false
    else charListLe as bs

/-- Python's `a <= b` on strings. -/
def strLe (a b : String) : Bool := charListLe a.data b.data

/-- Insert into a sorted list of strings (code-point order, as Python's
`sorted` compares strings). -/
def insertStr (x : String) : List String → List String
  | [] => [x]
  | y :: ys => if strLe x y then x :: y :: ys else y :: insertStr x ys

/-- `sorted(...)` on a list of strings. Equal strings are identical, so
this insertion sort returns exactly Python's stable sorted list. -/
def sortStrings : List String → List String
  | [] => []
  | x :: xs => insertStr x (sortStrings xs)

/-- `sorted(self.category_name_to_id.keys())[:10]` — the hint shown by the
unknown-category reply. -/
def categoryHint (names : List String) : List String :=
  (sortStrings names).take 10

/-- The reply of `change_category`. -/
inductive Reply
  | invalidNumber (num : Nat)
  | unknownCategory (input : String) (hint : List String)
  | changed (payee : String) (cat : String) (remaining : Option Nat)
  | changeFailed (payee : String)
deriving DecidableEq, Repr

/-- `ApprovalHandler.change_category` (lines 186-231): bounds-check the
1-based number, resolve the free-text category (exact case-insensitive,
then substring, else the unknown-category reply with the sorted hint),
update via `update_ynab_transaction`, and on success learn the pattern,
mark processed, and drop the transaction from the pending batch. -/
def change_category (nameToId : List (String × String))
    (patchOk : String → String → Bool) (transactions : List PTxn)
    (txn_num : Nat) (new_category : String) (thread_ts : String)
    (st : AgentState) : AgentState × Reply × List Ev :=
  if txn_num < 1 ∨ transactions.length < txn_num then
    (st, .invalidNumber txn_num, [])
  else
    let txn := transactions.getD (txn_num - 1) default
    match resolveCategory (nameToId.map (fun kv => kv.1)) new_category with
    | none =>
        (st, .unknownCategory new_category
              (categoryHint (nameToId.map (fun kv => kv.1))), [])
    | some matched =>
        if update_ynab_transaction nameToId patchOk txn.id matched then
          let remaining := transactions.filter (fun t => t.id != txn.id)
          let st1 : AgentState :=
            { st with
              category_patterns := learn_pattern st.category_patterns txn.payee_name matched,
              processed_transactions := st.processed_transactions ++ [txn.id] }
          let st2 : AgentState :=
            if remaining.isEmpty then
              { st1 with pending := popPending st1.pending thread_ts }
            else
              { st1 with pending := setPendingTxns st1.pending thread_ts remaining }
          (st2, .changed txn.payee_name matched
                  (if remaining.isEmpty then none else some remaining.length),
            [Ev.updateCall txn.id matched,
             Ev.patternWrite (normalizePayee txn.payee_name) matched,
             Ev.processedAppend txn.id])
        else
          (st, .changeFailed txn.payee_name, [Ev.updateCall txn.id matched])

/-- `re.findall(r'\d+', text)` followed by `int(...)`: maximal digit runs
of the text, read as numbers. The accumulator holds the run in progress. -/
def findallDigits : List Char → Option Nat → List Nat
  | [], none => []
  | [], some n => [n]
  | c :: rest, acc =>
    if c.isDigit then
      findallDigits rest (some (acc.getD 0 * 10 + (c.toNat - 48)))
    else
      match acc with
      | none => findallDigits rest none
      | some n => n :: findallDigits rest none

/-- The numbers an `approve 2,5`-style command refers to. -/
def extractNumbers (text : String) : List Nat :=
  findallDigits text.data none

/-! ## AI-response parsing (`YNABAgent.categorize_with_ai`, lines 262-280) -/

/-- One element of the model's JSON array, as the code reads it:
`suggestion["category"]` (KeyError when absent) and
`suggestion.get("confidence", "medium")`. -/
structure SuggestionObj where
  category : Option String
  confidence : Option String
deriving DecidableEq, Repr

/-- What `json.loads` can hand back: a JSON array of suggestion objects,
or any non-array value (dict, string, number, ...), which the indexing
loop cannot consume. -/
inductive PyJson
  | arr (elems : List SuggestionObj)
  | nonArray
deriving DecidableEq, Repr

/-- A transaction with its assigned suggestion. -/
structure CatTxn where
  txn : Txn
  suggested_category : String
  confidence : String
deriving DecidableEq, Repr

/-- The markdown-fence stripping of `categorize_with_ai`:
split on the opening fence, take part 1, split on the closing fence,
take part 0, strip. -/
def stripFence (s : String) : String :=
  if strContainsSub s "```json" then
    ((((s.splitOn "```json").getD 1 "").splitOn "```").getD 0 "").trim
  else if strContainsSub s "```" then
    ((((s.splitOn "```").getD 1 "").splitOn "```").getD 0 "").trim
  else s

/-- The assignment loop `for i, txn in enumerate(transactions):
suggestion = suggestions[i]; ...`: running past the end of the
suggestion array raises IndexError; a missing `category` key raises
KeyError; both abort the call. -/
def assignLoop : List Txn → List SuggestionObj → Except String (List CatTxn)
  | [], _ => .ok []
  | _ :: _, [] => .error "IndexError: list index out of range"
  | t :: ts, s :: ss =>
    match s.category with
    | none => .error "KeyError: category"
    | some cat =>
      match assignLoop ts ss with
      | .error e => .error e
      | .ok rest =>
          .ok ({ txn := t, suggested_category := cat,
                 confidence := s.confidence.getD "medium" } :: rest)

/-- The response-handling tail of `categorize_with_ai`: the early
`if not transactions: return []` guard, fence stripping, `json.loads`
(an oracle `parseJson`, `none` = raises JSONDecodeError), and the
positional assignment loop. A non-array value makes the first
subscript/key access raise. -/
def parseAndAssign (parseJson : String → Option PyJson) (ai_response : String)
    (transactions : List Txn) : Except String (List CatTxn) :=
  if transactions.isEmpty then .ok []
  else
    match parseJson (stripFence ai_response) with
    | none => .error "JSONDecodeError"
    | some .nonArray => .error "TypeError: not a list"
    | some (.arr suggs) => assignLoop transactions suggs

/-! ## Specification helpers and concrete example data -/

/-- The two members of a transfer pair, in order. -/
def pairMembers (p : Txn × Txn) : List Txn := [p.1, p.2]

/-- The ids the algorithm adds to `processed_ids` for one pair. -/
def pairIdList (p : Txn × Txn) : List String := [p.1.id, p.2.id]

/-- The transactions of a pending batch that a run of
`approve_specific` approves: valid 1-based positions whose update call
succeeded, in command order. -/
def approvedIdsOf (nameToId : List (String × String))
    (patchOk : String → String → Bool) (transactions : List PTxn)
    (numbers : List Nat) : List String :=
  numbers.filterMap (fun num =>
    if num < 1 ∨ transactions.length < num then none
    else
      let txn := transactions.getD (num - 1) default
      if update_ynab_transaction nameToId patchOk txn.id txn.suggested_category
      then some txn.id else none)

/-- A transfer from account A to B and its two possible counterparts from
B back to A: `exA` matches both `exB` and `exC` under the pair criteria. -/
def exA : Txn := ⟨"a", "P1", 5000, "2024-01-01", "A", some "B"⟩

def exB : Txn := ⟨"b", "P2", -5000, "2024-01-01", "B", some "A"⟩

def exC : Txn := ⟨"c", "P3", -5000, "2024-01-01", "B", some "A"⟩

/-- Three transfers that satisfy the pair criteria pairwise (forcing a
zero amount and a self counter-account). -/
def exZ1 : Txn := ⟨"z1", "", 0, "2024-02-02", "A", some "A"⟩

def exZ2 : Txn := ⟨"z2", "", 0, "2024-02-02", "A", some "A"⟩

def exZ3 : Txn := ⟨"z3", "", 0, "2024-02-02", "A", some "A"⟩

/-- A transaction with no counter-account identifier. -/
def exMiss : Txn := ⟨"m", "Store", -4000, "2024-01-01", "A", none⟩

/-- A transfer whose counter-account matches no transaction's account. -/
def exLone : Txn := ⟨"q", "Q", 7000, "2024-03-03", "A", some "Z"⟩

/-- A six-transaction pending batch. -/
def pt1 : PTxn := ⟨"t1", "P1", "Groceries"⟩

def pt2 : PTxn := ⟨"t2", "P2", "Dining"⟩

def pt3 : PTxn := ⟨"t3", "P3", "Groceries"⟩

def pt4 : PTxn := ⟨"t4", "P4", "Dining"⟩

def pt5 : PTxn := ⟨"t5", "P5", "Groceries"⟩

def pt6 : PTxn := ⟨"t6", "P6", "Dining"⟩

def exBatch6 : List PTxn := [pt1, pt2, pt3, pt4, pt5, pt6]

def exNameToId : List (String × String) := [("Groceries", "cg"), ("Dining", "cd")]

def exPatchTrue : String → String → Bool := fun _ _ => true

def exState6 : AgentState := ⟨[], [], [("ts1", exBatch6)]⟩

/-- A pending transaction whose AI suggestion is lower-cased relative to
the known category name "Groceries". -/
def exLower : PTxn := ⟨"t1", "Store", "groceries"⟩

def exStateLower : AgentState := ⟨[], [], [("ts1", [exLower])]⟩

/-- An HTTP oracle on which every PATCH fails. -/
def exPatchFalse : String → String → Bool := fun _ _ => false

def exStateOne : AgentState := ⟨[], [], [("ts1", [pt1])]⟩

/-- The update calls a run of `approve_specific` issues: one per valid
1-based position in the numbers list, carrying that transaction's id and
suggested category. -/
def updateCallsOf (transactions : List PTxn) (numbers : List Nat) : List Ev :=
  numbers.filterMap (fun num =>
    if num < 1 ∨ transactions.length < num then none
    else
      let txn := transactions.getD (num - 1) default
      some (Ev.updateCall txn.id txn.suggested_category))

/-! ## Lemmas about the transfer-pair loop -/

theorem findMatch_some {t1 t2 : Txn} :
    ∀ (rest : List Txn) (processed : List String),
    findMatch t1 rest processed = some t2 →
    t2 ∈ rest ∧ pairMatch t1 t2 = true ∧ processed.contains t2.id = false := by
  intro rest
  induction rest with
  | nil => intro processed h; simp [findMatch] at h
  | cons t rs ih =>
    intro processed h
    unfold findMatch at h
    by_cases hc : processed.contains t.id = true
    · rw [if_pos hc] at h
      rcases ih processed h with ⟨h1, h2, h3⟩
      exact ⟨List.mem_cons_of_mem _ h1, h2, h3⟩
    · rw [if_neg hc] at h
      by_cases hm : pairMatch t1 t = true
      · rw [if_pos hm] at h
        cases h
        exact ⟨List.mem_cons_self _ _, hm, Bool.eq_false_iff.mpr hc⟩
      · rw [if_neg hm] at h
        rcases ih processed h with ⟨h1, h2, h3⟩
        exact ⟨List.mem_cons_of_mem _ h1, h2, h3⟩

theorem pairLoop_proc (ts : List Txn) :
    ∀ (processed : List String) (pairs : List (Txn × Txn)),
    processed = pairs.flatMap pairIdList →
    (pairLoop ts processed pairs).2 = (pairLoop ts processed pairs).1.flatMap pairIdList := by
  induction ts with
  | nil => intro processed pairs h; simpa [pairLoop] using h
  | cons t1 rest ih =>
    intro processed pairs h
    unfold pairLoop
    by_cases hc : processed.contains t1.id = true
    · rw [if_pos hc]; exact ih _ _ h
    · rw [if_neg hc]
      cases hfm : findMatch t1 rest processed with
      | none => exact ih _ _ h
      | some t2 =>
        exact ih _ _ (by simp [h, pairIdList, List.flatMap_append])

theorem pairLoop_pairs_mem (ts : List Txn) :
    ∀ (processed : List String) (pairs : List (Txn × Txn)) (p : Txn × Txn),
    p ∈ (pairLoop ts processed pairs).1 →
    p ∈ pairs ∨ (p.1 ∈ ts ∧ p.2 ∈ ts ∧ pairMatch p.1 p.2 = true) := by
  induction ts with
  | nil => intro processed pairs p hp; exact Or.inl (by simpa [pairLoop] using hp)
  | cons t1 rest ih =>
    intro processed pairs p hp
    unfold pairLoop at hp
    by_cases hc : processed.contains t1.id = true
    · rw [if_pos hc] at hp
      rcases ih _ _ _ hp with h | ⟨h1, h2, h3⟩
      · exact Or.inl h
      · exact Or.inr ⟨List.mem_cons_of_mem _ h1, List.mem_cons_of_mem _ h2, h3⟩
    · rw [if_neg hc] at hp
      cases hfm : findMatch t1 rest processed with
      | none =>
        rw [hfm] at hp
        rcases ih _ _ _ hp with h | ⟨h1, h2, h3⟩
        · exact Or.inl h
        · exact Or.inr ⟨List.mem_cons_of_mem _ h1, List.mem_cons_of_mem _ h2, h3⟩
      | some t2 =>
        rw [hfm] at hp
        rcases ih _ _ _ hp with h | ⟨h1, h2, h3⟩
        · rcases List.mem_append.mp h with h' | h'
          · exact Or.inl h'
          · rcases findMatch_some rest processed hfm with ⟨hm1, hm2, _⟩
            have hp' : p = (t1, t2) := by simpa using h'
            subst hp'
            exact Or.inr ⟨List.mem_cons_self _ _, List.mem_cons_of_mem _ hm1, hm2⟩
        · exact Or.inr ⟨List.mem_cons_of_mem _ h1, List.mem_cons_of_mem _ h2, h3⟩

theorem pairLoop_proc_nodup (ts : List Txn) :
    ∀ (processed : List String) (pairs : List (Txn × Txn)),
    processed.Nodup → (ts.map Txn.id).Nodup →
    (pairLoop ts processed pairs).2.Nodup := by
  induction ts with
  | nil => intro processed pairs hp _; simpa [pairLoop] using hp
  | cons t1 rest ih =>
    intro processed pairs hp hts
    have hts' : (rest.map Txn.id).Nodup := (List.nodup_cons.mp hts).2
    unfold pairLoop
    by_cases hc : processed.contains t1.id = true
    · rw [if_pos hc]; exact ih _ _ hp hts'
    · rw [if_neg hc]
      cases hfm : findMatch t1 rest processed with
      | none => exact ih _ _ hp hts'
      | some t2 =>
        have h1 : t1.id ∉ processed := by
          intro hmem
          exact hc (by simpa using hmem)
        rcases findMatch_some rest processed hfm with ⟨hm1, _, hm3⟩
        have h2 : t2.id ∉ processed := by
          intro hmem
          rw [Bool.eq_false_iff] at hm3
          exact hm3 (by simpa using hmem)
        have h12 : t1.id ≠ t2.id := by
          intro he
          exact (List.nodup_cons.mp hts).1 (he ▸ List.mem_map_of_mem Txn.id hm1)
        refine ih _ _ ?_ hts'
        refine List.Nodup.append hp (by simp [h12]) ?_
        intro x hx hx'
        rcases (by simpa using hx' : x = t1.id ∨ x = t2.id) with rfl | rfl
        · exact h1 hx
        · exact h2 hx

/-- C1 (counterexample): `exA` and `exC` are transfer-flagged, have equal
dates, negated amounts and reciprocal accounts, yet the detector — having
already claimed `exA` for the earlier-scanned `exC`-identical counterpart
`exB` — does not return the pair (exA, exC) in either order, and `exC`
stays in the non-transfer output. -/
theorem transfer_pair_claim_fails_with_competitor :
    pairMatch exA exC = true ∧ isTransfer exA = true ∧ isTransfer exC = true ∧
    (exA, exC) ∉ (detect_transfer_pairs [exA, exB, exC]).1 ∧
    (exC, exA) ∉ (detect_transfer_pairs [exA, exB, exC]).1 ∧
    exC ∈ (detect_transfer_pairs [exA, exB, exC]).2 := by
  decide

/-- C1 (amended): when the transfer-flagged transactions of the input are
exactly two transactions with equal dates, negated amounts and reciprocal
account/counter-account identifiers, the detector returns them as one
pair and excludes both from the non-transfer output. -/
theorem transfer_pair_two_detected (l : List Txn) (t1 t2 : Txn)
    (hfil : l.filter isTransfer = [t1, t2])
    (hm : pairMatch t1 t2 = true) :
    (detect_transfer_pairs l).1 = [(t1, t2)] ∧
    t1 ∉ (detect_transfer_pairs l).2 ∧ t2 ∉ (detect_transfer_pairs l).2 := by
  have ht1 : isTransfer t1 = true := by
    have h : t1 ∈ l.filter isTransfer := by rw [hfil]; simp
    exact (List.mem_filter.mp h).2
  have ht2 : isTransfer t2 = true := by
    have h : t2 ∈ l.filter isTransfer := by rw [hfil]; simp
    exact (List.mem_filter.mp h).2
  have hdet : detect_transfer_pairs l = ([(t1, t2)], l.filter (fun t => !isTransfer t)) := by
    unfold detect_transfer_pairs
    rw [hfil]
    simp [pairLoop, findMatch, hm]
  refine ⟨by rw [hdet], ?_, ?_⟩
  · rw [hdet]
    intro hmem
    have := (List.mem_filter.mp hmem).2
    simp [ht1] at this
  · rw [hdet]
    intro hmem
    have := (List.mem_filter.mp hmem).2
    simp [ht2] at this

/-- C1 (witness for the amended theorem) at the concrete two-transfer
input [exA, exB, exMiss]. -/
theorem transfer_pair_two_detected_witness :
    (detect_transfer_pairs [exA, exB, exMiss]).1 = [(exA, exB)] ∧
    exA ∉ (detect_transfer_pairs [exA, exB, exMiss]).2 ∧
    exB ∉ (detect_transfer_pairs [exA, exB, exMiss]).2 :=
  transfer_pair_two_detected [exA, exB, exMiss] exA exB (by decide) (by decide)

/-- C2: when the transfer-flagged transactions of the input are exactly
three transactions with pairwise-satisfied match criteria and distinct
ids, the detector produces exactly the one pair formed from the first
match in input order, and the third transaction falls through to the
non-transfer output, unmatched. -/
theorem transfer_three_first_found_wins (l : List Txn) (t1 t2 t3 : Txn)
    (hfil : l.filter isTransfer = [t1, t2, t3])
    (h12 : pairMatch t1 t2 = true) (h13 : pairMatch t1 t3 = true)
    (h23 : pairMatch t2 t3 = true)
    (hid13 : t1.id ≠ t3.id) (hid23 : t2.id ≠ t3.id) :
    (detect_transfer_pairs l).1 = [(t1, t2)] ∧
    (detect_transfer_pairs l).2 = l.filter (fun t => !isTransfer t) ++ [t3] := by
  have hb13 : (t3.id == t1.id) = false := by
    exact beq_eq_false_iff_ne.mpr (Ne.symm hid13)
  have hb23 : (t3.id == t2.id) = false := by
    exact beq_eq_false_iff_ne.mpr (Ne.symm hid23)
  constructor
  · unfold detect_transfer_pairs
    rw [hfil]
    simp [pairLoop, findMatch, h12, hb13, hb23]
  · unfold detect_transfer_pairs
    rw [hfil]
    simp only [pairLoop, findMatch, h12, hb13, hb23]
    simp [hb13, hb23]
    exact ⟨Ne.symm hid13, Ne.symm hid23⟩

/-- C2 (witness) at the concrete all-matching trio [exZ1, exZ2, exZ3]. -/
theorem transfer_three_first_found_wins_witness :
    (detect_transfer_pairs [exZ1, exZ2, exZ3]).1 = [(exZ1, exZ2)] ∧
    (detect_transfer_pairs [exZ1, exZ2, exZ3]).2 =
      [exZ1, exZ2, exZ3].filter (fun t => !isTransfer t) ++ [exZ3] :=
  transfer_three_first_found_wins [exZ1, exZ2, exZ3] exZ1 exZ2 exZ3
    (by decide) (by decide) (by decide) (by decide) (by decide) (by decide)

theorem pairMatch_parts {t1 t2 : Txn} (h : pairMatch t1 t2 = true) :
    t1.date = t2.date ∧ t1.amount = -t2.amount ∧
    some t1.account_id = t2.transfer_account_id ∧
    some t2.account_id = t1.transfer_account_id := by
  have h' := h
  simp [pairMatch] at h'
  exact ⟨h'.1.1.1, h'.1.1.2, h'.1.2, h'.2⟩

theorem detect_pairs_proc :
    ∀ (l : List Txn),
    (pairLoop (l.filter isTransfer) [] []).2 =
      (pairLoop (l.filter isTransfer) [] []).1.flatMap pairIdList := by
  intro l
  exact pairLoop_proc _ _ _ (by simp)

/-- Every member of a produced pair is a transfer-flagged element of the
input list, and the two members satisfy the match criteria. -/
theorem detect_pairs_members (l : List Txn) (p : Txn × Txn)
    (hp : p ∈ (detect_transfer_pairs l).1) :
    p.1 ∈ l.filter isTransfer ∧ p.2 ∈ l.filter isTransfer ∧
    pairMatch p.1 p.2 = true := by
  have hp' : p ∈ (pairLoop (l.filter isTransfer) [] []).1 := hp
  rcases pairLoop_pairs_mem _ _ _ _ hp' with h | h
  · simp at h
  · exact h

/-- C3: a transfer-flagged transaction never claimed into a pair (its id
appears in no returned pair) is in the non-transfer output; a transaction
with a missing counter-account identifier is never a pair member and is in
the non-transfer output; and — when ids are unique — a transfer whose
declared counter-account equals no transaction's own account is never
claimed and falls through. -/
theorem unclaimed_transfer_falls_through (l : List Txn) (t : Txn) (ht : t ∈ l) :
    (isTransfer t = true →
      (∀ p ∈ (detect_transfer_pairs l).1, t.id ≠ p.1.id ∧ t.id ≠ p.2.id) →
      t ∈ (detect_transfer_pairs l).2)
    ∧ (t.transfer_account_id = none →
      t ∈ (detect_transfer_pairs l).2 ∧
      ∀ p ∈ (detect_transfer_pairs l).1, p.1 ≠ t ∧ p.2 ≠ t)
    ∧ ((l.map Txn.id).Nodup →
      (∀ t' ∈ l, some t'.account_id ≠ t.transfer_account_id) →
      isTransfer t = true →
      (∀ p ∈ (detect_transfer_pairs l).1, t.id ≠ p.1.id ∧ t.id ≠ p.2.id) ∧
      t ∈ (detect_transfer_pairs l).2) := by
  have main : isTransfer t = true →
      (∀ p ∈ (detect_transfer_pairs l).1, t.id ≠ p.1.id ∧ t.id ≠ p.2.id) →
      t ∈ (detect_transfer_pairs l).2 := by
    intro htr hun
    have htf : t ∈ l.filter isTransfer := List.mem_filter.mpr ⟨ht, htr⟩
    have hnotproc : t.id ∉ (pairLoop (l.filter isTransfer) [] []).2 := by
      rw [detect_pairs_proc l]
      intro hmem
      rcases List.mem_flatMap.mp hmem with ⟨p, hp, hid⟩
      rcases (by simpa [pairIdList] using hid : t.id = p.1.id ∨ t.id = p.2.id) with h | h
      · exact (hun p hp).1 h
      · exact (hun p hp).2 h
    have : t ∈ (l.filter isTransfer).filter
        (fun u => !(pairLoop (l.filter isTransfer) [] []).2.contains u.id) := by
      refine List.mem_filter.mpr ⟨htf, ?_⟩
      simpa using hnotproc
    unfold detect_transfer_pairs
    exact List.mem_append.mpr (Or.inr this)
  refine ⟨main, ?_, ?_⟩
  · intro hnone
    have htr : isTransfer t = false := by simp [isTransfer, hnone]
    constructor
    · have : t ∈ l.filter (fun u => !isTransfer u) :=
        List.mem_filter.mpr ⟨ht, by simp [htr]⟩
      unfold detect_transfer_pairs
      exact List.mem_append.mpr (Or.inl this)
    · intro p hp
      rcases detect_pairs_members l p hp with ⟨h1, h2, _⟩
      constructor
      · intro he
        have := (List.mem_filter.mp h1).2
        rw [he, htr] at this
        exact Bool.false_ne_true this
      · intro he
        have := (List.mem_filter.mp h2).2
        rw [he, htr] at this
        exact Bool.false_ne_true this
  · intro hnd hacc htr
    have hun : ∀ p ∈ (detect_transfer_pairs l).1, t.id ≠ p.1.id ∧ t.id ≠ p.2.id := by
      intro p hp
      rcases detect_pairs_members l p hp with ⟨h1, h2, hm⟩
      have h1l : p.1 ∈ l := (List.mem_filter.mp h1).1
      have h2l : p.2 ∈ l := (List.mem_filter.mp h2).1
      have hinj := List.inj_on_of_nodup_map hnd
      constructor
      · intro he
        have heq : t = p.1 := hinj ht h1l he
        have : some p.2.account_id = t.transfer_account_id := by
          rw [heq]
          have := pairMatch_parts hm
          exact this.2.2.2
        exact hacc p.2 h2l this
      · intro he
        have heq : t = p.2 := hinj ht h2l he
        have : some p.1.account_id = t.transfer_account_id := by
          rw [heq]
          have := pairMatch_parts hm
          exact this.2.2.1
        exact hacc p.1 h1l this
    exact ⟨hun, main htr hun⟩

/-- C3 (witness): in the input [exLone, exMiss], the never-matching
transfer `exLone` and the counter-account-less `exMiss` both appear in the
non-transfer output and in no pair. -/
theorem unclaimed_transfer_falls_through_witness :
    (exLone ∈ (detect_transfer_pairs [exLone, exMiss]).2) ∧
    (exMiss ∈ (detect_transfer_pairs [exLone, exMiss]).2 ∧
      ∀ p ∈ (detect_transfer_pairs [exLone, exMiss]).1, p.1 ≠ exMiss ∧ p.2 ≠ exMiss) ∧
    ((∀ p ∈ (detect_transfer_pairs [exLone, exMiss]).1,
        exLone.id ≠ p.1.id ∧ exLone.id ≠ p.2.id) ∧
      exLone ∈ (detect_transfer_pairs [exLone, exMiss]).2) :=
  ⟨(unclaimed_transfer_falls_through [exLone, exMiss] exLone (by decide)).1
      (by decide) (by decide),
   (unclaimed_transfer_falls_through [exLone, exMiss] exMiss (by decide)).2.1
      (by decide),
   (unclaimed_transfer_falls_through [exLone, exMiss] exLone (by decide)).2.2
      (by decide) (by decide) (by decide)⟩

/-- C10: with pairwise-distinct transaction ids, the detector's output is a
partition of its input — the members of the returned pairs together with
the residual non-transfer list are a permutation of the input list, so
every transaction appears exactly once and none is dropped or duplicated. -/
theorem detect_transfer_pairs_partitions (l : List Txn)
    (hnd : (l.map Txn.id).Nodup) :
    ((detect_transfer_pairs l).1.flatMap pairMembers ++
      (detect_transfer_pairs l).2).Perm l := by
  have hproc : (pairLoop (l.filter isTransfer) [] []).2 =
      (pairLoop (l.filter isTransfer) [] []).1.flatMap pairIdList :=
    detect_pairs_proc l
  have htsnd : ((l.filter isTransfer).map Txn.id).Nodup :=
    List.Nodup.sublist (List.Sublist.map _ (List.filter_sublist l)) hnd
  have hprocnd : (pairLoop (l.filter isTransfer) [] []).2.Nodup :=
    pairLoop_proc_nodup _ _ _ (by simp) htsnd
  have htsnodup : (l.filter isTransfer).Nodup := List.Nodup.of_map Txn.id htsnd
  have hFid : ((pairLoop (l.filter isTransfer) [] []).1.flatMap pairMembers).map Txn.id =
      (pairLoop (l.filter isTransfer) [] []).2 := by
    rw [hproc, List.map_flatMap]
    rfl
  have hFnd : ((pairLoop (l.filter isTransfer) [] []).1.flatMap pairMembers).Nodup := by
    apply List.Nodup.of_map Txn.id
    rw [hFid]; exact hprocnd
  have hFsub : ∀ x ∈ (pairLoop (l.filter isTransfer) [] []).1.flatMap pairMembers,
      x ∈ l.filter isTransfer := by
    intro x hx
    rcases List.mem_flatMap.mp hx with ⟨p, hp, hxp⟩
    rcases pairLoop_pairs_mem _ _ _ p hp with h | ⟨h1, h2, _⟩
    · simp at h
    · rcases (by simpa [pairMembers] using hxp : x = p.1 ∨ x = p.2) with rfl | rfl
      · exact h1
      · exact h2
  have hperm1 : ((pairLoop (l.filter isTransfer) [] []).1.flatMap pairMembers).Perm
      ((l.filter isTransfer).filter
        (fun t => (pairLoop (l.filter isTransfer) [] []).2.contains t.id)) := by
    apply List.perm_of_nodup_nodup_toFinset_eq hFnd (htsnodup.filter _)
    apply List.toFinset.ext
    intro x
    constructor
    · intro hx
      refine List.mem_filter.mpr ⟨hFsub x hx, ?_⟩
      have hxid : x.id ∈ (pairLoop (l.filter isTransfer) [] []).2 := by
        rw [← hFid]; exact List.mem_map_of_mem _ hx
      simpa using hxid
    · intro hx
      rcases List.mem_filter.mp hx with ⟨hxts, hxc⟩
      have hxid : x.id ∈ (pairLoop (l.filter isTransfer) [] []).2 := by simpa using hxc
      rw [← hFid] at hxid
      rcases List.mem_map.mp hxid with ⟨u, hu, huid⟩
      have heq : u = x := List.inj_on_of_nodup_map htsnd (hFsub u hu) hxts huid
      rwa [← heq]
  have h1 : (((pairLoop (l.filter isTransfer) [] []).1.flatMap pairMembers) ++
      (l.filter isTransfer).filter
        (fun t => !(pairLoop (l.filter isTransfer) [] []).2.contains t.id)).Perm
      (l.filter isTransfer) :=
    (hperm1.append_right _).trans
      (List.filter_append_perm
        (fun t : Txn => (pairLoop (l.filter isTransfer) [] []).2.contains t.id)
        (l.filter isTransfer))
  have h2 : ((l.filter isTransfer) ++ l.filter (fun t => !isTransfer t)).Perm l :=
    List.filter_append_perm isTransfer l
  show (((pairLoop (l.filter isTransfer) [] []).1.flatMap pairMembers) ++
      (l.filter (fun t => !isTransfer t) ++
        (l.filter isTransfer).filter
          (fun t => !(pairLoop (l.filter isTransfer) [] []).2.contains t.id))).Perm l
  refine List.Perm.trans (List.Perm.append_left _ List.perm_append_comm) ?_
  refine List.Perm.trans (List.Perm.of_eq (List.append_assoc _ _ _).symm) ?_
  exact ((h1.append_right _).trans h2)

/-- C10 (witness) at a concrete distinct-id input. -/
theorem detect_transfer_pairs_partitions_witness :
    ((detect_transfer_pairs [exA, exB, exC, exMiss]).1.flatMap pairMembers ++
      (detect_transfer_pairs [exA, exB, exC, exMiss]).2).Perm
      [exA, exB, exC, exMiss] :=
  detect_transfer_pairs_partitions [exA, exB, exC, exMiss] (by decide)

/-! ## Lemmas about the approval handler -/

theorem approveAllLoop_spec (nameToId : List (String × String))
    (patchOk : String → String → Bool) :
    ∀ (txns : List PTxn) (i : Nat) (st : AgentState),
    (approveAllLoop nameToId patchOk txns i st).2.1.length = txns.length ∧
    (approveAllLoop nameToId patchOk txns i st).1.processed_transactions =
      st.processed_transactions ++
        ((txns.filter (fun t =>
            update_ynab_transaction nameToId patchOk t.id t.suggested_category)).map
          (fun t => t.id)) ∧
    (approveAllLoop nameToId patchOk txns i st).1.pending = st.pending ∧
    (approveAllLoop nameToId patchOk txns i st).2.2.filter Ev.isUpdateCall =
      txns.map (fun t => Ev.updateCall t.id t.suggested_category) ∧
    (approveAllLoop nameToId patchOk txns i st).2.2.filter Ev.isPatternWrite =
      (txns.filter (fun t =>
          update_ynab_transaction nameToId patchOk t.id t.suggested_category)).map
        (fun t => Ev.patternWrite (normalizePayee t.payee_name) t.suggested_category) ∧
    (approveAllLoop nameToId patchOk txns i st).2.2.filter Ev.isProcessedAppend =
      (txns.filter (fun t =>
          update_ynab_transaction nameToId patchOk t.id t.suggested_category)).map
        (fun t => Ev.processedAppend t.id) := by
  intro txns
  induction txns with
  | nil => intro i st; simp [approveAllLoop]
  | cons txn rest ih =>
    intro i st
    by_cases hs : update_ynab_transaction nameToId patchOk txn.id txn.suggested_category = true
    · obtain ⟨ih1, ih2, ih3, ih4, ih5, ih6⟩ := ih (i + 1)
        { st with
          category_patterns := learn_pattern st.category_patterns txn.payee_name txn.suggested_category,
          processed_transactions := st.processed_transactions ++ [txn.id] }
      refine ⟨?_, ?_, ?_, ?_, ?_, ?_⟩ <;>
        simp [approveAllLoop, hs, ih1, ih2, ih3, ih4, ih5, ih6,
          Ev.isUpdateCall, Ev.isPatternWrite, Ev.isProcessedAppend]
    · rw [Bool.not_eq_true] at hs
      obtain ⟨ih1, ih2, ih3, ih4, ih5, ih6⟩ := ih (i + 1) st
      refine ⟨?_, ?_, ?_, ?_, ?_, ?_⟩ <;>
        simp [approveAllLoop, hs, ih1, ih2, ih3, ih4, ih5, ih6,
          Ev.isUpdateCall, Ev.isPatternWrite, Ev.isProcessedAppend]

theorem getPending_popPending (pending : List (String × List PTxn)) (ts : String) :
    getPending (popPending pending ts) ts = none := by
  induction pending with
  | nil => rfl
  | cons kv rest ih =>
    by_cases h : (kv.1 == ts) = true
    · simpa [popPending, getPending, h, bne] using ih
    · rw [Bool.not_eq_true] at h
      simp only [popPending, getPending, bne] at ih ⊢
      simp [List.filter_cons, h, List.find?_cons, ih]

theorem getPending_cons (k : String) (v : List PTxn)
    (rest : List (String × List PTxn)) (ts : String) :
    getPending ((k, v) :: rest) ts =
      if (k == ts) = true then some v else getPending rest ts := by
  by_cases h : (k == ts) = true <;> simp [getPending, List.find?_cons, h]

theorem setPendingTxns_cons (k : String) (v : List PTxn)
    (rest : List (String × List PTxn)) (ts : String) (txns : List PTxn) :
    setPendingTxns ((k, v) :: rest) ts txns =
      (if (k == ts) = true then (k, txns) else (k, v)) :: setPendingTxns rest ts txns := by
  simp [setPendingTxns]

theorem getPending_setPendingTxns (pending : List (String × List PTxn))
    (ts : String) (txns : List PTxn) :
    getPending (setPendingTxns pending ts txns) ts =
      if (getPending pending ts).isSome then some txns else none := by
  induction pending with
  | nil => rfl
  | cons kv rest ih =>
    rcases kv with ⟨k, v⟩
    rw [setPendingTxns_cons]
    by_cases h : (k == ts) = true
    · rw [if_pos h, getPending_cons, getPending_cons, if_pos h, if_pos h]
      simp
    · rw [if_neg h, getPending_cons, getPending_cons, if_neg h, if_neg h, ih]

theorem approveSpecificLoop_spec (nameToId : List (String × String))
    (patchOk : String → String → Bool) (txns : List PTxn) :
    ∀ (numbers : List Nat) (st : AgentState),
    (approveSpecificLoop nameToId patchOk txns numbers st).2.1.length = numbers.length ∧
    (approveSpecificLoop nameToId patchOk txns numbers st).1.processed_transactions =
      st.processed_transactions ∧
    (approveSpecificLoop nameToId patchOk txns numbers st).1.pending = st.pending ∧
    (approveSpecificLoop nameToId patchOk txns numbers st).2.2.1 =
      approvedIdsOf nameToId patchOk txns numbers ∧
    (∀ n ∈ numbers, (n < 1 ∨ txns.length < n) →
      Line.invalid n ∈ (approveSpecificLoop nameToId patchOk txns numbers st).2.1) ∧
    (approveSpecificLoop nameToId patchOk txns numbers st).2.2.2.filter Ev.isUpdateCall =
      updateCallsOf txns numbers := by
  intro numbers
  induction numbers with
  | nil => intro st; simp [approveSpecificLoop, approvedIdsOf, updateCallsOf]
  | cons num rest ih =>
    intro st
    by_cases hv : num < 1 ∨ txns.length < num
    · obtain ⟨ih1, ih2, ih3, ih4, ih5, ih6⟩ := ih st
      have hA : approvedIdsOf nameToId patchOk txns (num :: rest) =
          approvedIdsOf nameToId patchOk txns rest := by
        simp only [approvedIdsOf, List.filterMap_cons]
        rw [if_pos hv]
      have hU : updateCallsOf txns (num :: rest) = updateCallsOf txns rest := by
        simp only [updateCallsOf, List.filterMap_cons]
        rw [if_pos hv]
      refine ⟨?_, ?_, ?_, ?_, ?_, ?_⟩
      · simp only [approveSpecificLoop]; rw [if_pos hv]
        simpa using ih1
      · simp only [approveSpecificLoop]; rw [if_pos hv]
        exact ih2
      · simp only [approveSpecificLoop]; rw [if_pos hv]
        exact ih3
      · simp only [approveSpecificLoop]; rw [if_pos hv, hA]
        exact ih4
      · intro n hn hbad
        simp only [approveSpecificLoop]; rw [if_pos hv]
        rcases List.mem_cons.mp hn with rfl | hn'
        · exact List.mem_cons_self _ _
        · exact List.mem_cons_of_mem _ (ih5 n hn' hbad)
      · simp only [approveSpecificLoop]; rw [if_pos hv, hU]
        exact ih6
    · by_cases hs : update_ynab_transaction nameToId patchOk
          (txns.getD (num - 1) default).id
          (txns.getD (num - 1) default).suggested_category = true
      · obtain ⟨ih1, ih2, ih3, ih4, ih5, ih6⟩ := ih
          ({ st with category_patterns := learn_pattern st.category_patterns (txns.getD (num - 1) default).payee_name (txns.getD (num - 1) default).suggested_category })
        have hA : approvedIdsOf nameToId patchOk txns (num :: rest) =
            (txns.getD (num - 1) default).id :: approvedIdsOf nameToId patchOk txns rest := by
          simp only [approvedIdsOf, List.filterMap_cons]
          rw [if_neg hv, if_pos hs]
        have hU : updateCallsOf txns (num :: rest) =
            Ev.updateCall (txns.getD (num - 1) default).id
              (txns.getD (num - 1) default).suggested_category ::
              updateCallsOf txns rest := by
          simp only [updateCallsOf, List.filterMap_cons]
          rw [if_neg hv]
        refine ⟨?_, ?_, ?_, ?_, ?_, ?_⟩
        · simp only [approveSpecificLoop]; rw [if_neg hv, if_pos hs]
          simpa using ih1
        · simp only [approveSpecificLoop]; rw [if_neg hv, if_pos hs]
          simpa using ih2
        · simp only [approveSpecificLoop]; rw [if_neg hv, if_pos hs]
          simpa using ih3
        · simp only [approveSpecificLoop]; rw [if_neg hv, if_pos hs, hA]
          simpa using ih4
        · intro n hn hbad
          simp only [approveSpecificLoop]; rw [if_neg hv, if_pos hs]
          rcases List.mem_cons.mp hn with rfl | hn'
          · exact absurd hbad hv
          · exact List.mem_cons_of_mem _ (ih5 n hn' hbad)
        · simp only [approveSpecificLoop]; rw [if_neg hv, if_pos hs, hU]
          simp [Ev.isUpdateCall, Ev.isPatternWrite]
          simpa using ih6
      · have hs' : ¬(update_ynab_transaction nameToId patchOk
            (txns.getD (num - 1) default).id
            (txns.getD (num - 1) default).suggested_category = true) := hs
        rw [Bool.not_eq_true] at hs
        obtain ⟨ih1, ih2, ih3, ih4, ih5, ih6⟩ := ih st
        have hA : approvedIdsOf nameToId patchOk txns (num :: rest) =
            approvedIdsOf nameToId patchOk txns rest := by
          simp only [approvedIdsOf, List.filterMap_cons]
          rw [if_neg hv, if_neg hs']
        have hU : updateCallsOf txns (num :: rest) =
            Ev.updateCall (txns.getD (num - 1) default).id
              (txns.getD (num - 1) default).suggested_category ::
              updateCallsOf txns rest := by
          simp only [updateCallsOf, List.filterMap_cons]
          rw [if_neg hv]
        refine ⟨?_, ?_, ?_, ?_, ?_, ?_⟩
        · simp only [approveSpecificLoop]; rw [if_neg hv, if_neg hs']
          simpa using ih1
        · simp only [approveSpecificLoop]; rw [if_neg hv, if_neg hs']
          exact ih2
        · simp only [approveSpecificLoop]; rw [if_neg hv, if_neg hs']
          exact ih3
        · simp only [approveSpecificLoop]; rw [if_neg hv, if_neg hs', hA]
          exact ih4
        · intro n hn hbad
          simp only [approveSpecificLoop]; rw [if_neg hv, if_neg hs']
          rcases List.mem_cons.mp hn with rfl | hn'
          · exact absurd hbad hv
          · exact List.mem_cons_of_mem _ (ih5 n hn' hbad)
        · simp only [approveSpecificLoop]; rw [if_neg hv, if_neg hs', hU]
          simp [Ev.isUpdateCall, ih6]

/-- C7: `approve all` on a batch of N transactions issues exactly N
category-update calls (one `update_ynab_transaction` invocation per item);
for each successful call it records exactly one learned-pattern write
keyed by the normalized payee name and appends exactly one processed-id
entry; and afterwards the batch is gone from the pending state. -/
theorem approve_all_accounting (nameToId : List (String × String))
    (patchOk : String → String → Bool) (transactions : List PTxn)
    (thread_ts : String) (st : AgentState) :
    (approve_all nameToId patchOk transactions thread_ts st).2.2.1.countP Ev.isUpdateCall =
      transactions.length ∧
    (approve_all nameToId patchOk transactions thread_ts st).2.2.1.filter Ev.isUpdateCall =
      transactions.map (fun t => Ev.updateCall t.id t.suggested_category) ∧
    (approve_all nameToId patchOk transactions thread_ts st).2.2.1.filter Ev.isPatternWrite =
      (transactions.filter (fun t =>
          update_ynab_transaction nameToId patchOk t.id t.suggested_category)).map
        (fun t => Ev.patternWrite (normalizePayee t.payee_name) t.suggested_category) ∧
    (approve_all nameToId patchOk transactions thread_ts st).2.2.1.filter Ev.isProcessedAppend =
      (transactions.filter (fun t =>
          update_ynab_transaction nameToId patchOk t.id t.suggested_category)).map
        (fun t => Ev.processedAppend t.id) ∧
    getPending (approve_all nameToId patchOk transactions thread_ts st).1.pending
      thread_ts = none := by
  obtain ⟨h1, h2, h3, h4, h5, h6⟩ := approveAllLoop_spec nameToId patchOk transactions 1 st
  refine ⟨?_, ?_, ?_, ?_, ?_⟩
  · show ((approveAllLoop nameToId patchOk transactions 1 st).2.2.countP Ev.isUpdateCall) = _
    rw [List.countP_eq_length_filter, h4, List.length_map]
  · exact h4
  · exact h5
  · exact h6
  · show getPending (popPending (approveAllLoop nameToId patchOk transactions 1 st).1.pending
      thread_ts) thread_ts = none
    exact getPending_popPending _ _

/-- C4 (counterexample): under an oracle on which the PATCH fails,
`approve all` on the one-item batch reports the failure and does not mark
the item processed, but it still deletes the whole pending batch, so the
failed item is NOT retained for retry. -/
theorem approve_all_failed_item_dropped_from_pending :
    (approve_all exNameToId exPatchFalse [pt1] "ts1" exStateOne).2.1 =
      [Line.failed 1 "P1"] ∧
    (approve_all exNameToId exPatchFalse [pt1] "ts1" exStateOne).1.processed_transactions =
      [] ∧
    getPending exStateOne.pending "ts1" = some [pt1] ∧
    getPending (approve_all exNameToId exPatchFalse [pt1] "ts1" exStateOne).1.pending
      "ts1" = none := by
  decide

/-- C4 (amended): per-item category-update failures inside a batch command
are reported individually without stopping the loop, and failed items are
never appended to the processed-transaction id set. In `approve
<numbers>` failed items furthermore remain in the pending batch, eligible
for retry; `approve all`, however, removes the entire batch — failed items
included — from the pending state. -/
theorem batch_failure_handling :
    (∀ (nameToId : List (String × String)) (patchOk : String → String → Bool)
        (transactions : List PTxn) (thread_ts : String) (st : AgentState),
      (approve_all nameToId patchOk transactions thread_ts st).2.1.length =
        transactions.length ∧
      (approve_all nameToId patchOk transactions thread_ts st).1.processed_transactions =
        st.processed_transactions ++
          ((transactions.filter (fun t =>
              update_ynab_transaction nameToId patchOk t.id t.suggested_category)).map
            (fun t => t.id)) ∧
      getPending (approve_all nameToId patchOk transactions thread_ts st).1.pending
        thread_ts = none) ∧
    (∀ (nameToId : List (String × String)) (patchOk : String → String → Bool)
        (transactions : List PTxn) (numbers : List Nat) (thread_ts : String)
        (st : AgentState),
      (approve_specific nameToId patchOk transactions numbers thread_ts st).2.1.length =
        numbers.length ∧
      (approve_specific nameToId patchOk transactions numbers thread_ts st).1.processed_transactions =
        st.processed_transactions ++ approvedIdsOf nameToId patchOk transactions numbers ∧
      ((getPending st.pending thread_ts).isSome = true →
        transactions.filter (fun t =>
          !(approvedIdsOf nameToId patchOk transactions numbers).contains t.id) ≠ [] →
        getPending (approve_specific nameToId patchOk transactions numbers thread_ts st).1.pending
          thread_ts =
          some (transactions.filter (fun t =>
            !(approvedIdsOf nameToId patchOk transactions numbers).contains t.id)))) := by
  constructor
  · intro nameToId patchOk transactions thread_ts st
    obtain ⟨h1, h2, h3, h4, h5, h6⟩ := approveAllLoop_spec nameToId patchOk transactions 1 st
    refine ⟨h1, h2, ?_⟩
    show getPending (popPending (approveAllLoop nameToId patchOk transactions 1 st).1.pending
      thread_ts) thread_ts = none
    exact getPending_popPending _ _
  · intro nameToId patchOk transactions numbers thread_ts st
    obtain ⟨s1, s2, s3, s4, s5, s6⟩ :=
      approveSpecificLoop_spec nameToId patchOk transactions numbers st
    refine ⟨s1, ?_, ?_⟩
    · simp only [approve_specific, apply_ite AgentState.processed_transactions, ite_self]
      rw [s2, s4]
    · intro hp hne
      have hisE : (transactions.filter (fun t =>
          !(approvedIdsOf nameToId patchOk transactions numbers).contains t.id)).isEmpty = false := by
        cases hE : (transactions.filter (fun t =>
            !(approvedIdsOf nameToId patchOk transactions numbers).contains t.id)).isEmpty
        · rfl
        · exact absurd (List.isEmpty_iff.mp hE) hne
      simp only [approve_specific, s3, s4]
      rw [hisE]
      simp only [Bool.false_eq_true, if_false]
      rw [getPending_setPendingTxns, hp]
      simp

/-- C4 (witness for the amended theorem): `approve all` reports one line
per item, and a fully-failing `approve 2` run keeps the whole six-item
batch pending. -/
theorem batch_failure_handling_witness :
    (approve_all exNameToId exPatchTrue exBatch6 "ts1" exState6).2.1.length =
      exBatch6.length ∧
    getPending (approve_specific exNameToId exPatchFalse exBatch6 [2] "ts1" exState6).1.pending
      "ts1" =
      some (exBatch6.filter (fun t =>
        !(approvedIdsOf exNameToId exPatchFalse exBatch6 [2]).contains t.id)) :=
  ⟨(batch_failure_handling.1 exNameToId exPatchTrue exBatch6 "ts1" exState6).1,
   (batch_failure_handling.2 exNameToId exPatchFalse exBatch6 [2] "ts1" exState6).2.2
     (by decide) (by decide)⟩

/-- C5 (counterexample): the AI-suggested name "groceries" (lower-case)
against known category "Groceries" fails via the approval path's exact
case-sensitive dict lookup, while the Category Resolver — and hence the
category-change command — resolves it. The two paths differ, so
per-transaction approval does NOT resolve through the Category Resolver. -/
theorem suggested_category_not_resolved_via_resolver :
    update_ynab_transaction exNameToId exPatchTrue "t1" "groceries" = false ∧
    resolveCategory (exNameToId.map (fun kv => kv.1)) "groceries" =
      some "Groceries" ∧
    (approve_all exNameToId exPatchTrue [exLower] "ts1" exStateLower).2.1 =
      [Line.failed 1 "Store"] ∧
    (change_category exNameToId exPatchTrue [exLower] 1 "groceries" "ts1"
        exStateLower).2.1 =
      Reply.changed "Store" "Groceries" none := by
  decide

/-- C5 (amended): per-transaction approvals pass the AI-suggested category
name unresolved to `update_ynab_transaction`, which resolves it only by
exact case-sensitive lookup in the name→id map (no fallback); the
exact-case-insensitive-then-substring Category Resolver is invoked only by
the category-change command, whose update call carries the resolver's
output. -/
theorem suggested_category_resolution_paths :
    (∀ (nameToId : List (String × String)) (patchOk : String → String → Bool)
        (transactions : List PTxn) (thread_ts : String) (st : AgentState),
      (approve_all nameToId patchOk transactions thread_ts st).2.2.1.filter Ev.isUpdateCall =
        transactions.map (fun t => Ev.updateCall t.id t.suggested_category)) ∧
    (∀ (nameToId : List (String × String)) (patchOk : String → String → Bool)
        (tid nm : String), dictGet nameToId nm = none →
      update_ynab_transaction nameToId patchOk tid nm = false) ∧
    (∀ (nameToId : List (String × String)) (patchOk : String → String → Bool)
        (transactions : List PTxn) (txn_num : Nat) (cat thread_ts : String)
        (st : AgentState) (m : String),
      ¬(txn_num < 1 ∨ transactions.length < txn_num) →
      resolveCategory (nameToId.map (fun kv => kv.1)) cat = some m →
      ∀ tid nm, Ev.updateCall tid nm ∈
        (change_category nameToId patchOk transactions txn_num cat thread_ts st).2.2 →
        nm = m) := by
  refine ⟨?_, ?_, ?_⟩
  · intro nameToId patchOk transactions thread_ts st
    exact (approveAllLoop_spec nameToId patchOk transactions 1 st).2.2.2.1
  · intro nameToId patchOk tid nm h
    simp [update_ynab_transaction, h]
  · intro nameToId patchOk transactions txn_num cat thread_ts st m hn hres tid nm hmem
    simp only [change_category, hres] at hmem
    rw [if_neg hn] at hmem
    by_cases hs : update_ynab_transaction nameToId patchOk
        (transactions.getD (txn_num - 1) default).id m = true
    · rw [if_pos hs] at hmem
      simp at hmem
      exact hmem.2
    · rw [if_neg hs] at hmem
      simp at hmem
      exact hmem.2

/-- C5 (witness for the amended theorem). -/
theorem suggested_category_resolution_paths_witness :
    (approve_all exNameToId exPatchTrue [exLower] "ts1" exStateLower).2.2.1.filter Ev.isUpdateCall =
      [exLower].map (fun t => Ev.updateCall t.id t.suggested_category) ∧
    update_ynab_transaction exNameToId exPatchTrue "x" "groceries" = false ∧
    (∀ tid nm, Ev.updateCall tid nm ∈
        (change_category exNameToId exPatchTrue [exLower] 1 "groceries" "ts1"
          exStateLower).2.2 → nm = "Groceries") :=
  ⟨suggested_category_resolution_paths.1 exNameToId exPatchTrue [exLower] "ts1" exStateLower,
   suggested_category_resolution_paths.2.1 exNameToId exPatchTrue "x" "groceries" (by decide),
   fun tid nm hmem =>
     suggested_category_resolution_paths.2.2 exNameToId exPatchTrue [exLower] 1
       "groceries" "ts1" exStateLower "Groceries" (by decide) (by decide) tid nm hmem⟩

/-- C6: category resolution tries the exact case-insensitive pass first;
failing that it takes the first name whose lowercase form contains the
lowercase input; failing both, the category-change command replies with
an unknown-category outcome whose hint is the first ten known names in
sorted order. Concretely, "groc" against ["Groceries", "Gas"] resolves to
"Groceries" via the substring pass, and "nonexistent" fails with the
sorted hint list. -/
theorem category_resolution_spec :
    (∀ (names : List String) (input c : String),
      names.find? (fun n => strLower n == strLower input) = some c →
      resolveCategory names input = some c) ∧
    (∀ (names : List String) (input c : String),
      names.find? (fun n => strLower n == strLower input) = none →
      names.find? (fun n => strContainsSub (strLower n) (strLower input)) = some c →
      resolveCategory names input = some c) ∧
    (∀ (names : List String) (input : String),
      names.find? (fun n => strLower n == strLower input) = none →
      names.find? (fun n => strContainsSub (strLower n) (strLower input)) = none →
      resolveCategory names input = none) ∧
    (∀ (nameToId : List (String × String)) (patchOk : String → String → Bool)
        (transactions : List PTxn) (txn_num : Nat) (cat thread_ts : String)
        (st : AgentState),
      ¬(txn_num < 1 ∨ transactions.length < txn_num) →
      resolveCategory (nameToId.map (fun kv => kv.1)) cat = none →
      (change_category nameToId patchOk transactions txn_num cat thread_ts st).2.1 =
        Reply.unknownCategory cat
          ((sortStrings (nameToId.map (fun kv => kv.1))).take 10)) ∧
    resolveCategory ["Groceries", "Gas"] "groc" = some "Groceries" ∧
    (["Groceries", "Gas"].find? (fun n => strLower n == strLower "groc") = none) ∧
    strContainsSub (strLower "Groceries") (strLower "groc") = true ∧
    resolveCategory ["Groceries", "Gas"] "nonexistent" = none ∧
    (change_category exNameToId exPatchTrue [exLower] 1 "nonexistent" "ts1"
        exStateLower).2.1 =
      Reply.unknownCategory "nonexistent" ["Dining", "Groceries"] := by
  refine ⟨?_, ?_, ?_, ?_, by decide, by decide, by decide, by decide, by decide⟩
  · intro names input c h
    simp [resolveCategory, h]
  · intro names input c h1 h2
    simp [resolveCategory, h1, h2]
  · intro names input h1 h2
    simp [resolveCategory, h1, h2]
  · intro nameToId patchOk transactions txn_num cat thread_ts st hn hres
    simp only [change_category, hres]
    rw [if_neg hn]
    rfl

/-- C6 (witness): the quantified parts applied at concrete inputs. -/
theorem category_resolution_spec_witness :
    resolveCategory ["Gas"] "gAs" = some "Gas" ∧
    resolveCategory ["Groceries", "Gas"] "groc" = some "Groceries" ∧
    resolveCategory ["Gas"] "zz" = none ∧
    (change_category exNameToId exPatchTrue [exLower] 1 "zz" "ts1" exStateLower).2.1 =
      Reply.unknownCategory "zz"
        ((sortStrings (exNameToId.map (fun kv => kv.1))).take 10) :=
  ⟨category_resolution_spec.1 ["Gas"] "gAs" "Gas" (by decide),
   category_resolution_spec.2.1 ["Groceries", "Gas"] "groc" "Groceries"
     (by decide) (by decide),
   category_resolution_spec.2.2.1 ["Gas"] "zz" (by decide) (by decide),
   category_resolution_spec.2.2.2.1 exNameToId exPatchTrue [exLower] 1 "zz" "ts1"
     exStateLower (by decide) (by decide)⟩

/-- C9 helper: the positional assignment loop fails when the suggestion
array is shorter than the transaction list. -/
theorem assignLoop_short :
    ∀ (txns : List Txn) (suggs : List SuggestionObj),
    suggs.length < txns.length → ∃ e, assignLoop txns suggs = .error e := by
  intro txns
  induction txns with
  | nil => intro suggs h; simp at h
  | cons t ts ih =>
    intro suggs h
    cases suggs with
    | nil => exact ⟨"IndexError: list index out of range", rfl⟩
    | cons sg ss =>
      cases hc : sg.category with
      | none => exact ⟨"KeyError: category", by simp [assignLoop, hc]⟩
      | some cat =>
        obtain ⟨e, he⟩ := ih ss (by simpa using Nat.lt_of_succ_lt_succ (by simpa using h))
        exact ⟨e, by simp [assignLoop, hc, he]⟩

/-- C9: when the (fence-stripped) completion response does not parse as
JSON, or parses to an array with fewer elements than the transaction
list, the categorization step returns a raised error instead of a normal
result. -/
theorem malformed_ai_response_fails (parseJson : String → Option PyJson)
    (resp : String) (transactions : List Txn) (hne : transactions ≠ []) :
    (parseJson (stripFence resp) = none →
      ∃ e, parseAndAssign parseJson resp transactions = .error e) ∧
    (∀ suggs, parseJson (stripFence resp) = some (.arr suggs) →
      suggs.length < transactions.length →
      ∃ e, parseAndAssign parseJson resp transactions = .error e) := by
  have hisE : transactions.isEmpty = false := by
    cases hE : transactions.isEmpty
    · rfl
    · exact absurd (List.isEmpty_iff.mp hE) hne
  constructor
  · intro hp
    exact ⟨"JSONDecodeError", by simp [parseAndAssign, hp, hisE]⟩
  · intro suggs hp hlen
    obtain ⟨e, he⟩ := assignLoop_short transactions suggs hlen
    exact ⟨e, by simp [parseAndAssign, hp, hisE, he]⟩

/-- C9 (witness): a non-JSON response and a one-element-short array both
produce errors for a singleton transaction list. -/
theorem malformed_ai_response_fails_witness :
    (∃ e, parseAndAssign (fun _ => none) "x" [exA] = .error e) ∧
    (∃ e, parseAndAssign (fun _ => some (.arr [])) "x" [exA] = .error e) :=
  ⟨(malformed_ai_response_fails (fun _ => none) "x" [exA] (by decide)).1 rfl,
   (malformed_ai_response_fails (fun _ => some (.arr [])) "x" [exA] (by decide)).2
     [] rfl (by decide)⟩

/-- C8: on a six-transaction pending batch with distinct ids, the command
text "approve 2,5" (whose digit runs are the numbers [2, 5]) issues update
calls only for the transactions at 1-based positions 2 and 5; when both
updates succeed, positions 1, 3, 4 and 6 stay in the pending batch and the
reply reports the remaining count 4. Out-of-range positions are reported
individually as invalid without aborting the rest of the list. -/
theorem approve_two_five_of_six :
    (∀ (nameToId : List (String × String)) (patchOk : String → String → Bool)
        (t1 t2 t3 t4 t5 t6 : PTxn) (thread_ts : String) (st : AgentState),
      (([t1, t2, t3, t4, t5, t6] : List PTxn).map PTxn.id).Nodup →
      (getPending st.pending thread_ts).isSome = true →
      update_ynab_transaction nameToId patchOk t2.id t2.suggested_category = true →
      update_ynab_transaction nameToId patchOk t5.id t5.suggested_category = true →
      (approve_specific nameToId patchOk [t1, t2, t3, t4, t5, t6]
          (extractNumbers "approve 2,5") thread_ts st).2.2.1.filter Ev.isUpdateCall =
        [Ev.updateCall t2.id t2.suggested_category,
         Ev.updateCall t5.id t5.suggested_category] ∧
      getPending (approve_specific nameToId patchOk [t1, t2, t3, t4, t5, t6]
          (extractNumbers "approve 2,5") thread_ts st).1.pending thread_ts =
        some [t1, t3, t4, t6] ∧
      (approve_specific nameToId patchOk [t1, t2, t3, t4, t5, t6]
          (extractNumbers "approve 2,5") thread_ts st).2.2.2.2 = some 4) ∧
    (∀ (nameToId : List (String × String)) (patchOk : String → String → Bool)
        (transactions : List PTxn) (numbers : List Nat) (thread_ts : String)
        (st : AgentState) (n : Nat), n ∈ numbers →
      (n < 1 ∨ transactions.length < n) →
      Line.invalid n ∈
        (approve_specific nameToId patchOk transactions numbers thread_ts st).2.1 ∧
      (approve_specific nameToId patchOk transactions numbers thread_ts st).2.1.length =
        numbers.length) := by
  constructor
  · intro nameToId patchOk t1 t2 t3 t4 t5 t6 thread_ts st hnd hp hs2 hs5
    have hnum : extractNumbers "approve 2,5" = [2, 5] := by decide
    rw [hnum]
    obtain ⟨s1, s2, s3, s4, s5, s6⟩ :=
      approveSpecificLoop_spec nameToId patchOk [t1, t2, t3, t4, t5, t6] [2, 5] st
    simp only [List.map_cons, List.map_nil, List.nodup_cons, List.mem_cons,
      List.not_mem_nil, not_or, List.mem_singleton, List.nodup_nil] at hnd
    obtain ⟨⟨h12, h13, h14, h15, h16, -⟩, ⟨h23, h24, h25, h26, -⟩,
      ⟨h34, h35, h36, -⟩, ⟨h45, h46, -⟩, ⟨h56, -⟩, -⟩ := hnd
    have hApp : approvedIdsOf nameToId patchOk [t1, t2, t3, t4, t5, t6] [2, 5] =
        [t2.id, t5.id] := by
      simp [approvedIdsOf, hs2, hs5]
    have hCalls : updateCallsOf [t1, t2, t3, t4, t5, t6] [2, 5] =
        [Ev.updateCall t2.id t2.suggested_category,
         Ev.updateCall t5.id t5.suggested_category] := by
      simp [updateCallsOf]
    have hRem : ([t1, t2, t3, t4, t5, t6] : List PTxn).filter
        (fun t => !(approvedIdsOf nameToId patchOk [t1, t2, t3, t4, t5, t6] [2, 5]).contains t.id) =
        [t1, t3, t4, t6] := by
      rw [hApp]
      simp [List.filter_cons, h12, h15, Ne.symm h23, h35, Ne.symm h24, h45,
        Ne.symm h26, Ne.symm h56]
    refine ⟨?_, ?_, ?_⟩
    · simp only [approve_specific]
      rw [List.filter_append, s6, hCalls]
      simp [Ev.isProcessedAppend, Ev.isUpdateCall, List.filter_map]
    · simp only [approve_specific, s3, s4]
      rw [hRem]
      have hne : (([t1, t3, t4, t6] : List PTxn).isEmpty) = false := rfl
      rw [hne]
      simp only [Bool.false_eq_true, if_false]
      rw [getPending_setPendingTxns, hp]
      simp
    · simp only [approve_specific, s4]
      rw [hRem]
      rfl
  · intro nameToId patchOk transactions numbers thread_ts st n hn hbad
    obtain ⟨s1, s2, s3, s4, s5, s6⟩ :=
      approveSpecificLoop_spec nameToId patchOk transactions numbers st
    exact ⟨s5 n hn hbad, s1⟩

/-- C8 (witness): the concrete six-item batch with all-succeeding updates,
plus an out-of-range request. -/
theorem approve_two_five_of_six_witness :
    ((approve_specific exNameToId exPatchTrue exBatch6
        (extractNumbers "approve 2,5") "ts1" exState6).2.2.1.filter Ev.isUpdateCall =
      [Ev.updateCall pt2.id pt2.suggested_category,
       Ev.updateCall pt5.id pt5.suggested_category] ∧
      getPending (approve_specific exNameToId exPatchTrue exBatch6
          (extractNumbers "approve 2,5") "ts1" exState6).1.pending "ts1" =
        some [pt1, pt3, pt4, pt6] ∧
      (approve_specific exNameToId exPatchTrue exBatch6
          (extractNumbers "approve 2,5") "ts1" exState6).2.2.2.2 = some 4) ∧
    (Line.invalid 9 ∈
        (approve_specific exNameToId exPatchTrue exBatch6 [2, 9] "ts1" exState6).2.1 ∧
      (approve_specific exNameToId exPatchTrue exBatch6 [2, 9] "ts1" exState6).2.1.length = 2) :=
  ⟨approve_two_five_of_six.1 exNameToId exPatchTrue pt1 pt2 pt3 pt4 pt5 pt6 "ts1"
      exState6 (by decide) (by decide) (by decide) (by decide),
   approve_two_five_of_six.2 exNameToId exPatchTrue exBatch6 [2, 9] "ts1" exState6 9
      (by decide) (by decide)⟩

end YnabSpec
